import Mathlib

/-!
Verification of the distributed-matrix layer (`ParallelMatrix<T>`) of the
scalapack-demo repository: the 2D block-cyclic layout bookkeeping
(`global2Local`, `local2Global`, the grid set up by `initBlacs`), the guards
of the algebraic operations (`prod`, `+=`, `-=`, `operator()`, `symmetrize`,
`diagonalize`), and the element-access / empty-matrix state behaviour.

Machine integers of the C++ source are modelled as `Nat` (they are
non-negative and far from overflow in every statement below), except where a
value can genuinely be negative (the `-1` sentinel of `global2Local`, the
`int` coordinates of `operator()`); those use `Int`.  Scalars (`double` /
`complex<double>`) are modelled as `ℚ`: the claims below are about layout
bookkeeping, control flow and exact algebraic structure, not rounding.
-/

/-- Modelled from the spec: the ScaLAPACK tools routine `numroc_` (declared in
`blacs.h`, external to this repository), which the constructor calls to obtain
the number of rows/columns of the global matrix that are local to the process
at coordinate `iproc` of a `nprocs`-long grid dimension, with block size `nb`
and source process 0 (the source always passes `iZero`).  The spec describes
it as the block-cyclic partition of `n` indices: whole blocks are dealt
round-robin, the last (possibly partial) block goes to the process after the
last full round. -/
def numroc (n nb iproc nprocs : ℕ) : ℕ :=
  let mydist := (nprocs + iproc) % nprocs
  let nblocks := n / nb
  let base := nblocks / nprocs * nb
  let extrablks := nblocks % nprocs
  if mydist < extrablks then base + nb
  else if mydist = extrablks then base + n % nb
  else base

/-- Modelled from the spec: the owner computation inside the ScaLAPACK tools
routine `infog2l_` (external, declared in `blacs.h`): the process-grid
coordinate owning 1-based global index `iglob` with block size `nb` over
`nprocs` processes and source process 0 is `((iglob-1)/nb) mod nprocs`.  The
spec: "locate which block-row/block-col (row,col) falls in, compute which
worker owns that block via (blockIndex mod gridDim)". -/
def indxg2p (iglob nb nprocs : ℕ) : ℕ :=
  ((iglob - 1) / nb) % nprocs

/-- Modelled from the spec: the ScaLAPACK tools routine `indxg2l_` (external,
declared in `blacs.h`): the 1-based local index of 1-based global index
`iglob` on its owning process, with block size `nb` over `nprocs` processes:
the block-local residue plus the count of whole blocks already owned along
that dimension. -/
def indxg2l (iglob nb nprocs : ℕ) : ℕ :=
  nb * ((iglob - 1) / (nb * nprocs)) + (iglob - 1) % nb + 1

/-- The per-process layout bookkeeping of a `ParallelMatrix<T>`
(fields `numRows_`, `numCols_`, `blockSizeRows_`, `blockSizeCols_`,
`numBlacsRows_`, `numBlacsCols_`, `myBlacsRow_`, `myBlacsCol_` of
`PMatrix.h`). -/
structure PMState where
  numRows : ℕ
  numCols : ℕ
  blockSizeRows : ℕ
  blockSizeCols : ℕ
  numBlacsRows : ℕ
  numBlacsCols : ℕ
  myBlacsRow : ℕ
  myBlacsCol : ℕ
deriving DecidableEq, Repr

/-- The field `numLocalRows_`, set in the constructor by
`numroc_(&numRows_, &blockSizeRows_, &myBlacsRow_, &iZero, &numBlacsRows_)`. -/
def localRowsOf (st : PMState) : ℕ :=
  numroc st.numRows st.blockSizeRows st.myBlacsRow st.numBlacsRows

/-- The field `numLocalCols_`, set in the constructor by
`numroc_(&numCols_, &blockSizeCols_, &myBlacsCol_, &iZero, &numBlacsCols_)`. -/
def localColsOf (st : PMState) : ℕ :=
  numroc st.numCols st.blockSizeCols st.myBlacsCol st.numBlacsCols

/-- The leading local dimension stored in `descMat_[8]` by the constructor:
`int lddA = numLocalRows_ > 1 ? numLocalRows_ : 1;`. -/
def lldOf (st : PMState) : ℕ :=
  if 1 < localRowsOf st then localRowsOf st else 1

/-- `ParallelMatrix<T>::global2Local(row, col)` (PMatrix.h:556-577): converts
0-based global coordinates to the 1-based Fortran convention, asks `infog2l_`
for the owning process coordinates, returns `-1` if they are not this
process's coordinates, and otherwise combines the 1-based local indices from
`indxg2l_` into the 0-based column-major storage offset
`il + (jl - 1) * descMat_[8] - 1`. -/
def global2Local (st : PMState) (row col : ℕ) : ℤ :=
  let row1 := row + 1
  let col1 := col + 1
  let iarow := indxg2p row1 st.blockSizeRows st.numBlacsRows
  let iacol := indxg2p col1 st.blockSizeCols st.numBlacsCols
  if st.myBlacsRow ≠ iarow ∨ st.myBlacsCol ≠ iacol then -1
  else
    let il := indxg2l row1 st.blockSizeRows st.numBlacsRows
    let jl := indxg2l col1 st.blockSizeCols st.numBlacsCols
    (il : ℤ) + ((jl : ℤ) - 1) * (lldOf st : ℤ) - 1

/-- `ParallelMatrix<T>::local2Global(k)` (PMatrix.h:525-553): splits the
0-based column-major local storage index `k` into local row/column indices
`i = k - (k / numLocalRows_) * numLocalRows_`, `j = k / numLocalRows_`, and
maps each through the manual block-cyclic formula
`I = (l_i * numBlacsRows_ + myBlacsRow_) * blockSizeRows_ + x_i` (and its
column analogue). -/
def local2Global (st : PMState) (k : ℕ) : ℕ × ℕ :=
  let j := k / localRowsOf st
  let i := k % localRowsOf st
  let li := i / st.blockSizeRows
  let xi := i % st.blockSizeRows
  let gI := (li * st.numBlacsRows + st.myBlacsRow) * st.blockSizeRows + xi
  let lj := j / st.blockSizeCols
  let xj := j % st.blockSizeCols
  let gJ := (lj * st.numBlacsCols + st.myBlacsCol) * st.blockSizeCols + xj
  (gI, gJ)

/-- The bookkeeping state of the process at grid coordinate `(pr, pc)` of a
`P × Q` process grid holding an `R × C` matrix with block sizes `mb × nbc`. -/
def gridState (R C mb nbc P Q pr pc : ℕ) : PMState :=
  ⟨R, C, mb, nbc, P, Q, pr, pc⟩

/-- The flag `ParallelMatrix<T>::transN = 'N'` (no transpose). -/
def transN : Char := 'N'

/-- The flag `ParallelMatrix<T>::transT = 'T'` (transpose). -/
def transT : Char := 'T'

/-- The flag `ParallelMatrix<T>::transC = 'C'` (adjoint). -/
def transC : Char := 'C'

/-- The global shape (`numRows_`, `numCols_`) of a `ParallelMatrix`. -/
structure MatShape where
  rows : ℕ
  cols : ℕ
deriving DecidableEq, Repr

/-- The dimension `m` computed in `prod` (PMatrix.cpp:20-25 and 63-68):
`m = numRows_` when `trans1 == transN`, else `m = numCols_`. -/
def prodM (a : MatShape) (t1 : Char) : ℕ :=
  if t1 = transN then a.rows else a.cols

/-- The dimension `n` computed in `prod` (PMatrix.cpp:26-31 and 69-74):
`n = that.numCols_` when `trans2 == transN`, else `n = that.numRows_`. -/
def prodN (b : MatShape) (t2 : Char) : ℕ :=
  if t2 = transN then b.cols else b.rows

/-- The dimension `k` computed in `prod` (PMatrix.cpp:32-37 and 75-80):
`k = numCols_` when `trans1 == transN`, else `k = numRows_`.  This is the
flag-adjusted inner dimension of the left operand. -/
def prodK (a : MatShape) (t1 : Char) : ℕ :=
  if t1 = transN then a.cols else a.rows

/-- The flag-adjusted inner dimension of the right operand, which `prod` only
compares to `k` in a debug-build `assert` after the shape check and result
allocation (PMatrix.cpp:38-43 and 81-86). -/
def prodKthat (b : MatShape) (t2 : Char) : ℕ :=
  if t2 = transN then b.rows else b.cols

/-- Shape-level model of `ParallelMatrix<double>::prod` (PMatrix.cpp:10-51):
the only fatal shape check is `cols() != that.rows()` — performed before any
allocation — and the result matrix is `auto result = that;` (a copy of the
right operand), so the returned global shape is `that`'s shape. -/
def prodRealShape (a b : MatShape) (t1 t2 : Char) : Except String MatShape :=
  if a.cols ≠ b.rows then
    .error "Cannot multiply matrices for which lhs.cols != rhs.rows."
  else
    .ok b

/-- Shape-level model of `ParallelMatrix<std::complex<double>>::prod`
(PMatrix.cpp:54-94): the result is constructed as
`ParallelMatrix(numRows_, numCols_, numBlocksRows_, numBlocksCols_)` — the
left operand's shape and blocking (and, with no context argument, a freshly
initialized default grid) — and this construction happens before the
`cols() != that.rows()` check. -/
def prodComplexShape (a b : MatShape) (t1 t2 : Char) : Except String MatShape :=
  if a.cols ≠ b.rows then
    .error "Cannot multiply matrices for which lhs.cols != rhs.rows."
  else
    .ok a

/-- `ParallelMatrix<T>::operator+=` (PMatrix.h:628-636): the shape check comes
before the elementwise loop over the local buffers. -/
def addInPlace (a : MatShape) (abuf : List ℚ) (b : MatShape) (bbuf : List ℚ) :
    Except String (List ℚ) :=
  if a.rows ≠ b.rows ∨ a.cols ≠ b.cols then
    .error "Cannot adds matrices of different sizes."
  else
    .ok (List.zipWith (· + ·) abuf bbuf)

/-- `ParallelMatrix<T>::operator-=` (PMatrix.h:639-647). -/
def subInPlace (a : MatShape) (abuf : List ℚ) (b : MatShape) (bbuf : List ℚ) :
    Except String (List ℚ) :=
  if a.rows ≠ b.rows ∨ a.cols ≠ b.cols then
    .error "Cannot subtract matrices of different sizes."
  else
    .ok (List.zipWith (· - ·) abuf bbuf)

/-- The bounds guard at the top of the non-const
`ParallelMatrix<T>::operator()` (PMatrix.h:484):
`if(row > numRows_ || col > numCols_) DeveloperError(...)`, on C++ `int`
coordinates.  Returns `true` when the guard raises the fatal error. -/
def accessGuardTrips (numRows numCols : ℕ) (row col : ℤ) : Bool :=
  row > (numRows : ℤ) || col > (numCols : ℤ)

/-- The per-process element state of a `ParallelMatrix<T>`: the layout
bookkeeping, the local buffer `mat` (column-major, `numLocalElements_` long)
and the mutable member `dummyZero` that the non-const `operator()` returns a
reference to for non-owned coordinates. -/
structure PMat where
  st : PMState
  buf : List ℚ
  dummyZero : ℚ
deriving DecidableEq, Repr

/-- Read through the non-const `ParallelMatrix<T>::operator()`
(PMatrix.h:483-492): for a non-owned coordinate it sets `dummyZero = 0` and
returns (a reference to) it, so the value read is `0`; otherwise it reads the
buffer slot `mat[localIndex]`. -/
def getElemMut (M : PMat) (row col : ℕ) : ℚ :=
  let localIndex := global2Local M.st row col
  if localIndex = -1 then 0 else M.buf.getD localIndex.toNat 0

/-- Read through the const `ParallelMatrix<T>::operator()` (PMatrix.h:495-502):
for a non-owned coordinate it returns `dummyConstZero`, a const member equal
to `0`. -/
def getElemConst (M : PMat) (row col : ℕ) : ℚ :=
  let localIndex := global2Local M.st row col
  if localIndex = -1 then 0 else M.buf.getD localIndex.toNat 0

/-- Assignment through the reference returned by the non-const
`ParallelMatrix<T>::operator()`: a non-owned coordinate aliases the member
`dummyZero`, so the write lands there and the local buffer is untouched; an
owned coordinate writes the buffer slot `mat[localIndex]`. -/
def setElemMut (M : PMat) (row col : ℕ) (v : ℚ) : PMat :=
  let localIndex := global2Local M.st row col
  if localIndex = -1 then { M with dummyZero := v }
  else { M with buf := M.buf.set localIndex.toNat v }

/-- `ParallelMatrix<T>::initBlacs` (PMatrix.h:394-453), restricted to the grid
shape it selects (the BLACS context handling is runtime state): the
too-many-processes check `mpi->getSize() < numBlacsRows * numBlacsCols` on the
requested values comes first; then the four request cases; the default case
takes `numBlacsRows_ = (int)(sqrt(size))` (rounding down) and raises the
square-worker-count error when `mpi->getSize() > numBlacsRows_ * numBlacsCols_`. -/
def initBlacsGrid (size reqRows reqCols : ℕ) : Except String (ℕ × ℕ) :=
  if size < reqRows * reqCols then
    .error "Developer error: initBlacs requested too many MPI processes."
  else if reqRows ≠ 0 ∧ reqCols = 0 then .ok (reqRows, size / reqRows)
  else if reqRows = 0 ∧ reqCols ≠ 0 then .ok (size / reqCols, reqCols)
  else if reqRows ≠ 0 ∧ reqCols ≠ 0 then .ok (reqRows, reqCols)
  else
    let nr := Nat.sqrt size
    if size > nr * nr then
      .error "Most ScaLAPACK calls need a square number of MPI processes"
    else .ok (nr, nr)

/-- Modelled from the spec: the transpose-and-accumulate backend primitive
`pdtran_` (external ScaLAPACK routine declared in `blacs.h`), which computes
`C = beta*C + alpha*(A)^T` — it both reads and writes the destination `C`.
Global-matrix semantics over exact scalars. -/
def pdtran (n : ℕ) (alpha : ℚ) (A : Matrix (Fin n) (Fin n) ℚ) (beta : ℚ)
    (C : Matrix (Fin n) (Fin n) ℚ) : Matrix (Fin n) (Fin n) ℚ :=
  Matrix.of fun i j => beta * C i j + alpha * A j i

/-- `ParallelMatrix<double>::symmetrize` (PMatrix.cpp:348-368) on a square
matrix: first snapshots the contents (`ParallelMatrix<double> AT = *(this);`),
then calls `pdtran_` with `scale = 0.5` passed for both the transposed source
`AT` and the accumulation target `mat`. -/
def symmetrizeSquare (n : ℕ) (A : Matrix (Fin n) (Fin n) ℚ) :
    Matrix (Fin n) (Fin n) ℚ :=
  let AT := A
  pdtran n (1 / 2) AT (1 / 2) A

/-- The square-matrix guard of `ParallelMatrix<double>::symmetrize`
(PMatrix.cpp:353-355). -/
def symmetrizeCheck (numRows numCols : ℕ) : Except String Unit :=
  if numRows ≠ numCols then
    .error "Cannot currently symmetrize a non-square matrix."
  else
    .ok ()

/-- The observable contract of the partial-spectrum
`ParallelMatrix<double>::diagonalize(int numEigenvalues, bool)`
(PMatrix.cpp:232-344): the square-matrix and square-grid guards, the clamp
`if (numRows_ < numEigenvalues) numEigenvalues = numRows_;`, the length of the
returned `std::vector<double> eigenvalues_(numEigenvalues)`, and the global
shape `(numRows_, numCols_)` of the eigenvector matrix it allocates.  Returns
`(eigenvalue count, eigenvector-matrix shape)`. -/
def diagonalizePartial (numRows numCols numBlacsRows numBlacsCols
    numEigenvalues : ℕ) : Except String (ℕ × ℕ × ℕ) :=
  if numRows ≠ numCols then .error "Cannot diagonalize non-square matrix"
  else if numBlacsRows ≠ numBlacsCols then
    .error "Cannot diagonalize via scalapack with a non-square process grid!"
  else
    let nev := if numRows < numEigenvalues then numRows else numEigenvalues
    .ok (nev, numRows, numCols)

/-- The raw per-process storage state of a `ParallelMatrix<T>`: the size
fields and the owning pointer `mat`, modelled as `Option (List ℚ)` where
`none` is the null pointer of a default-constructed matrix.  Reading or
writing an element through a null pointer has no defined result, so every
buffer-touching operation below returns `none` if it ever dereferences a
`none` buffer. -/
structure RawPMatrix where
  numRows : ℕ
  numCols : ℕ
  numLocalRows : ℕ
  numLocalCols : ℕ
  numLocalElements : ℕ
  buf : Option (List ℚ)
deriving DecidableEq, Repr

/-- `ParallelMatrix<T>::ParallelMatrix()` (PMatrix.h:312-315): the empty
constructor leaves every member at its initializer — all counts `0` and
`mat = nullptr`. -/
def defaultRaw : RawPMatrix :=
  ⟨0, 0, 0, 0, 0, none⟩

/-- `ParallelMatrix<T>::rows()` (PMatrix.h:455-458). -/
def RawPMatrix.rows (M : RawPMatrix) : ℕ := M.numRows

/-- `ParallelMatrix<T>::cols()` (PMatrix.h:465-468). -/
def RawPMatrix.cols (M : RawPMatrix) : ℕ := M.numCols

/-- `ParallelMatrix<T>::localRows()` (PMatrix.h:460-463). -/
def RawPMatrix.localRows (M : RawPMatrix) : ℕ := M.numLocalRows

/-- `ParallelMatrix<T>::localCols()` (PMatrix.h:470-473). -/
def RawPMatrix.localCols (M : RawPMatrix) : ℕ := M.numLocalCols

/-- `ParallelMatrix<T>::size()` (PMatrix.h:475-479):
`size_t(cols()) * size_t(rows())`. -/
def RawPMatrix.size (M : RawPMatrix) : ℕ := M.numCols * M.numRows

/-- A read `*(mat + i)`: fails (`none`) on a null buffer. -/
def readLocal (M : RawPMatrix) (i : ℕ) : Option ℚ :=
  M.buf.bind fun l => l.get? i

/-- A write `*(mat + i) = v`: fails (`none`) on a null buffer. -/
def writeLocal (M : RawPMatrix) (i : ℕ) (v : ℚ) : Option RawPMatrix :=
  M.buf.map fun l => { M with buf := some (l.set i v) }

/-- The update loop `for (i = 0; i < numLocalElements_; i++) *(mat+i) = f(*(mat+i));`
shared by `operator*=` (PMatrix.h:611-617), `operator/=` (PMatrix.h:619-625)
and the negation loop of `operator-` (PMatrix.h:688-695). -/
def mapLoop (M : RawPMatrix) (f : ℚ → ℚ) : Option RawPMatrix :=
  (List.range M.numLocalElements).foldl
    (fun acc i => acc.bind fun m => (readLocal m i).bind fun v => writeLocal m i (f v))
    (some M)

/-- `ParallelMatrix<T>::zeros()` (PMatrix.h:662-665): writes `0` to every
local element. -/
def zerosOp (M : RawPMatrix) : Option RawPMatrix :=
  (List.range M.numLocalElements).foldl
    (fun acc i => acc.bind fun m => writeLocal m i 0)
    (some M)

/-- `ParallelMatrix<T>::operator*=(const T&)` (PMatrix.h:611-617). -/
def scalarMulOp (M : RawPMatrix) (c : ℚ) : Option RawPMatrix :=
  mapLoop M (· * c)

/-- `ParallelMatrix<T>::operator/=(const T&)` (PMatrix.h:619-625). -/
def scalarDivOp (M : RawPMatrix) (c : ℚ) : Option RawPMatrix :=
  mapLoop M (· / c)

/-- `ParallelMatrix<T>::operator-()` (PMatrix.h:688-695): copies the matrix
(the copy constructor loops over `numLocalElements_` elements) and negates
each local element of the copy. -/
def negOp (M : RawPMatrix) : Option RawPMatrix :=
  mapLoop M (fun v => -v)

/-- The local accumulation loop of `ParallelMatrix<T>::dot`
(PMatrix.h:677-686): `scalar += (*(mat + i)) * (*(that.mat + i))` over the
local elements. -/
def dotLocalOp (M N : RawPMatrix) : Option ℚ :=
  (List.range M.numLocalElements).foldl
    (fun acc i => acc.bind fun s =>
      (readLocal M i).bind fun a => (readLocal N i).bind fun b => some (s + a * b))
    (some 0)

/-- The collective `mpi->allReduceSum` closing `dot`: the global scalar is the
sum of the per-process partial sums. -/
def allReduceSum (xs : List ℚ) : ℚ := xs.sum

/-- `dot` as observed across the whole job: every process contributes its
local partial sum and the reduction adds them. -/
def dotGlobal (pairs : List (RawPMatrix × RawPMatrix)) : Option ℚ :=
  (pairs.mapM fun ab => dotLocalOp ab.1 ab.2).map allReduceSum

/-! Helper lemmas about the block-cyclic layout. -/

/-- For a process coordinate `p < P`, `numroc` evaluates to whole rounds plus
the extra block (or partial block) dealt to `p`. -/
theorem numroc_eval (n nb P p : ℕ) (hP : p < P) :
    numroc n nb p P =
      n / nb / P * nb +
        ((if p < n / nb % P then nb else 0) + (if p = n / nb % P then n % nb else 0)) := by
  unfold numroc
  simp only [Nat.add_mod_left, Nat.mod_eq_of_lt hP]
  by_cases h1 : p < n / nb % P
  · have h2 : p ≠ n / nb % P := Nat.ne_of_lt h1
    simp [h1, h2]
  · by_cases h2 : p = n / nb % P
    · simp [h1, h2]
    · simp [h1, h2]

/-- The `numroc` values along one grid dimension partition the `n` global
indices: their sum over all process coordinates is `n`. -/
theorem sum_numroc (n nb P : ℕ) (hP : 0 < P) :
    ∑ p ∈ Finset.range P, numroc n nb p P = n := by
  have e_lt : n / nb % P < P := Nat.mod_lt _ hP
  have hfilter : (Finset.range P).filter (fun p => p < n / nb % P) = Finset.range (n / nb % P) := by
    ext x
    simp only [Finset.mem_filter, Finset.mem_range]
    omega
  calc ∑ p ∈ Finset.range P, numroc n nb p P
      = ∑ p ∈ Finset.range P,
          (n / nb / P * nb +
            ((if p < n / nb % P then nb else 0) + (if p = n / nb % P then n % nb else 0))) :=
        Finset.sum_congr rfl (fun p hp => numroc_eval n nb P p (Finset.mem_range.mp hp))
    _ = P * (n / nb / P * nb) + ((n / nb % P) * nb + n % nb) := by
        rw [Finset.sum_add_distrib, Finset.sum_add_distrib, Finset.sum_const, Finset.card_range,
          smul_eq_mul]
        congr 1
        congr 1
        · rw [← Finset.sum_filter, hfilter, Finset.sum_const, Finset.card_range, smul_eq_mul]
        · rw [Finset.sum_ite_eq' (Finset.range P) (n / nb % P) (fun _ => n % nb)]
          simp [Finset.mem_range, e_lt]
    _ = n := by
        have hdiv : P * (n / nb / P) + n / nb % P = n / nb := Nat.div_add_mod (n / nb) P
        have hdiv2 : nb * (n / nb) + n % nb = n := Nat.div_add_mod n nb
        have hre : P * (n / nb / P * nb) + (n / nb % P * nb + n % nb)
            = (P * (n / nb / P) + n / nb % P) * nb + n % nb := by ring
        rw [hre, hdiv, mul_comm, hdiv2]

/-- The manual block-cyclic formula of `local2Global` is a section of the
`infog2l_`/`indxg2l_` maps used by `global2Local`: the global index built from
local index `i` on process `pr` is owned by `pr` and maps back to 1-based
local index `i + 1`. -/
theorem blockmap_inv (mb P pr i : ℕ) (hmb : 1 ≤ mb) (hpr : pr < P) :
    indxg2p ((i / mb * P + pr) * mb + i % mb + 1) mb P = pr ∧
    indxg2l ((i / mb * P + pr) * mb + i % mb + 1) mb P = i + 1 := by
  have h0 : 0 < mb := hmb
  have hxi : i % mb < mb := Nat.mod_lt _ h0
  have hsplit : (i / mb * P + pr) * mb + i % mb = mb * (i / mb * P + pr) + i % mb := by ring
  constructor
  · unfold indxg2p
    rw [Nat.add_sub_cancel, hsplit, Nat.mul_add_div h0, Nat.div_eq_of_lt hxi, Nat.add_zero,
      Nat.add_comm, Nat.add_mul_mod_self_right, Nat.mod_eq_of_lt hpr]
  · unfold indxg2l
    rw [Nat.add_sub_cancel]
    have hmod : ((i / mb * P + pr) * mb + i % mb) % mb = i % mb := by
      rw [hsplit, Nat.mul_add_mod, Nat.mod_eq_of_lt hxi]
    have hlt : pr * mb + i % mb < mb * P := by
      have h1 : pr * mb + i % mb < (pr + 1) * mb := by nlinarith
      have h2 : (pr + 1) * mb ≤ P * mb := Nat.mul_le_mul_right mb hpr
      calc pr * mb + i % mb < (pr + 1) * mb := h1
        _ ≤ P * mb := h2
        _ = mb * P := Nat.mul_comm P mb
    have hdivmp : ((i / mb * P + pr) * mb + i % mb) / (mb * P) = i / mb := by
      have hre : (i / mb * P + pr) * mb + i % mb = mb * P * (i / mb) + (pr * mb + i % mb) := by
        ring
      rw [hre, Nat.mul_add_div (Nat.mul_pos h0 (Nat.lt_of_le_of_lt (Nat.zero_le pr) hpr)),
        Nat.div_eq_of_lt hlt, Nat.add_zero]
    rw [hdivmp, hmod, Nat.div_add_mod]

/-- A 1-based local index from `indxg2l` is at least `1`. -/
theorem indxg2l_pos (g nb P : ℕ) : 1 ≤ indxg2l g nb P := by
  unfold indxg2l
  omega

/-- The leading local dimension stored in the descriptor is at least `1`. -/
theorem lldOf_pos (st : PMState) : 1 ≤ lldOf st := by
  unfold lldOf
  split_ifs with h
  · omega
  · omega

/-- On a process that does not own `(row, col)`, `global2Local` returns the
sentinel `-1`. -/
theorem global2Local_eq_neg_one (st : PMState) (row col : ℕ)
    (h : ¬(st.myBlacsRow = indxg2p (row + 1) st.blockSizeRows st.numBlacsRows ∧
           st.myBlacsCol = indxg2p (col + 1) st.blockSizeCols st.numBlacsCols)) :
    global2Local st row col = -1 := by
  simp only [global2Local]
  rw [if_pos]
  tauto

/-- On the process that owns `(row, col)`, `global2Local` returns a
non-negative local storage index. -/
theorem global2Local_nonneg (st : PMState) (row col : ℕ)
    (h : st.myBlacsRow = indxg2p (row + 1) st.blockSizeRows st.numBlacsRows ∧
         st.myBlacsCol = indxg2p (col + 1) st.blockSizeCols st.numBlacsCols) :
    0 ≤ global2Local st row col := by
  simp only [global2Local]
  rw [if_neg (by tauto)]
  have h1 := indxg2l_pos (row + 1) st.blockSizeRows st.numBlacsRows
  have h2 := indxg2l_pos (col + 1) st.blockSizeCols st.numBlacsCols
  have h3 := lldOf_pos st
  have h4 : (1 : ℤ) ≤ (indxg2l (row + 1) st.blockSizeRows st.numBlacsRows : ℤ) := by
    exact_mod_cast h1
  have h5 : (1 : ℤ) ≤ (indxg2l (col + 1) st.blockSizeCols st.numBlacsCols : ℤ) := by
    exact_mod_cast h2
  have h6 : (0 : ℤ) ≤ ((indxg2l (col + 1) st.blockSizeCols st.numBlacsCols : ℤ) - 1)
      * (lldOf st : ℤ) := by
    apply mul_nonneg
    · linarith
    · positivity
  linarith

/-- C1: on a `P × Q` process grid holding an `R × C` matrix, every in-range
global coordinate `(row, col)` is owned by exactly one process — that
process's `global2Local` is non-negative while every other process gets the
sentinel `-1` — and the per-process `localRows*localCols` counts sum to
`R * C` over the whole grid. -/
theorem ownership_partition (R C mb nbc P Q row col : ℕ)
    (hmb : 1 ≤ mb) (hnbc : 1 ≤ nbc) (hP : 1 ≤ P) (hQ : 1 ≤ Q)
    (hrow : row < R) (hcol : col < C) :
    (∃! pq : ℕ × ℕ, pq.1 < P ∧ pq.2 < Q ∧
        0 ≤ global2Local (gridState R C mb nbc P Q pq.1 pq.2) row col) ∧
    (∀ pr pc : ℕ, pr < P → pc < Q → (pr, pc) ≠ (row / mb % P, col / nbc % Q) →
        global2Local (gridState R C mb nbc P Q pr pc) row col = -1) ∧
    (∑ pr ∈ Finset.range P, ∑ pc ∈ Finset.range Q,
        localRowsOf (gridState R C mb nbc P Q pr pc)
          * localColsOf (gridState R C mb nbc P Q pr pc)) = R * C := by
  have hPp : 0 < P := hP
  have hQp : 0 < Q := hQ
  have hprow : indxg2p (row + 1) mb P = row / mb % P := by
    unfold indxg2p
    rw [Nat.add_sub_cancel]
  have hpcol : indxg2p (col + 1) nbc Q = col / nbc % Q := by
    unfold indxg2p
    rw [Nat.add_sub_cancel]
  refine ⟨⟨(row / mb % P, col / nbc % Q), ⟨Nat.mod_lt _ hPp, Nat.mod_lt _ hQp, ?_⟩, ?_⟩, ?_, ?_⟩
  · apply global2Local_nonneg
    exact ⟨by simpa [gridState] using hprow.symm, by simpa [gridState] using hpcol.symm⟩
  · rintro ⟨pr, pc⟩ ⟨h1, h2, h3⟩
    by_contra hne
    have hsent : global2Local (gridState R C mb nbc P Q pr pc) row col = -1 := by
      apply global2Local_eq_neg_one
      simp only [gridState]
      intro hcon
      apply hne
      rw [Prod.mk.injEq]
      obtain ⟨ha, hb⟩ := hcon
      exact ⟨by rw [ha]; exact hprow, by rw [hb]; exact hpcol⟩
    rw [hsent] at h3
    omega
  · intro pr pc h1 h2 hne
    apply global2Local_eq_neg_one
    simp only [gridState]
    intro hcon
    apply hne
    rw [Prod.mk.injEq]
    obtain ⟨ha, hb⟩ := hcon
    exact ⟨by rw [ha]; exact hprow, by rw [hb]; exact hpcol⟩
  · have hloc : ∀ pr pc : ℕ, localRowsOf (gridState R C mb nbc P Q pr pc)
        * localColsOf (gridState R C mb nbc P Q pr pc)
        = numroc R mb pr P * numroc C nbc pc Q := fun _ _ => rfl
    calc ∑ pr ∈ Finset.range P, ∑ pc ∈ Finset.range Q,
          localRowsOf (gridState R C mb nbc P Q pr pc)
            * localColsOf (gridState R C mb nbc P Q pr pc)
        = ∑ pr ∈ Finset.range P, ∑ pc ∈ Finset.range Q, numroc R mb pr P * numroc C nbc pc Q :=
          Finset.sum_congr rfl (fun pr _ => Finset.sum_congr rfl (fun pc _ => hloc pr pc))
      _ = (∑ pr ∈ Finset.range P, numroc R mb pr P) * (∑ pc ∈ Finset.range Q, numroc C nbc pc Q) :=
          (Finset.sum_mul_sum _ _ _ _).symm
      _ = R * C := by rw [sum_numroc R mb P hPp, sum_numroc C nbc Q hQp]

/-- Witness for C1 at a concrete configuration: a `4 × 4` matrix with `2 × 2`
blocks on a `2 × 2` grid, coordinate `(3, 1)`. -/
theorem ownership_partition_witness :
    ((1 ≤ 2 ∧ 1 ≤ 2 ∧ 1 ≤ 2 ∧ 1 ≤ 2 ∧ 3 < 4 ∧ 1 < 4) ∧
    ((∃! pq : ℕ × ℕ, pq.1 < 2 ∧ pq.2 < 2 ∧
        0 ≤ global2Local (gridState 4 4 2 2 2 2 pq.1 pq.2) 3 1) ∧
    (∀ pr pc : ℕ, pr < 2 → pc < 2 → (pr, pc) ≠ (3 / 2 % 2, 1 / 2 % 2) →
        global2Local (gridState 4 4 2 2 2 2 pr pc) 3 1 = -1) ∧
    (∑ pr ∈ Finset.range 2, ∑ pc ∈ Finset.range 2,
        localRowsOf (gridState 4 4 2 2 2 2 pr pc)
          * localColsOf (gridState 4 4 2 2 2 2 pr pc)) = 4 * 4)) :=
  ⟨by decide,
   ownership_partition 4 4 2 2 2 2 3 1 (by decide) (by decide) (by decide) (by decide)
     (by decide) (by decide)⟩

/-- C2: on any process of the grid, converting a valid local storage index
`k` to a global coordinate with `local2Global` and converting that coordinate
back with `global2Local` on the same process returns `k`. -/
theorem local2Global_roundtrip (st : PMState) (k : ℕ)
    (hmb : 1 ≤ st.blockSizeRows) (hnbc : 1 ≤ st.blockSizeCols)
    (hpr : st.myBlacsRow < st.numBlacsRows) (hpc : st.myBlacsCol < st.numBlacsCols)
    (hk : k < localRowsOf st * localColsOf st) :
    global2Local st (local2Global st k).1 (local2Global st k).2 = (k : ℤ) := by
  have hLR : 0 < localRowsOf st := by
    rcases Nat.eq_zero_or_pos (localRowsOf st) with h | h
    · rw [h, Nat.zero_mul] at hk
      exact absurd hk (Nat.not_lt_zero k)
    · exact h
  obtain ⟨hrp, hrl⟩ := blockmap_inv st.blockSizeRows st.numBlacsRows st.myBlacsRow
    (k % localRowsOf st) hmb hpr
  obtain ⟨hcp, hcl⟩ := blockmap_inv st.blockSizeCols st.numBlacsCols st.myBlacsCol
    (k / localRowsOf st) hnbc hpc
  have hfst : (local2Global st k).1
      = (k % localRowsOf st / st.blockSizeRows * st.numBlacsRows + st.myBlacsRow)
          * st.blockSizeRows + k % localRowsOf st % st.blockSizeRows := rfl
  have hsnd : (local2Global st k).2
      = (k / localRowsOf st / st.blockSizeCols * st.numBlacsCols + st.myBlacsCol)
          * st.blockSizeCols + k / localRowsOf st % st.blockSizeCols := rfl
  rw [hfst, hsnd]
  simp only [global2Local]
  rw [hrp, hcp, if_neg (by simp), hrl, hcl]
  have hlld : lldOf st = localRowsOf st := by
    unfold lldOf
    split_ifs with h
    · rfl
    · omega
  rw [hlld]
  have hdmz : (localRowsOf st : ℤ) * ((k / localRowsOf st : ℕ) : ℤ)
      + ((k % localRowsOf st : ℕ) : ℤ) = (k : ℤ) := by
    exact_mod_cast Nat.div_add_mod k (localRowsOf st)
  simp only [Nat.cast_add, Nat.cast_one]
  linear_combination hdmz

/-- Witness for C2 at a concrete configuration: the process at `(1, 1)` of a
`2 × 2` grid holding a `5 × 7` matrix with `2 × 3` blocks, local index `5`. -/
theorem local2Global_roundtrip_witness :
    ((1 ≤ 2 ∧ 1 ≤ 3 ∧ 1 < 2 ∧ 1 < 2 ∧
      5 < localRowsOf (gridState 5 7 2 3 2 2 1 1) * localColsOf (gridState 5 7 2 3 2 2 1 1)) ∧
    global2Local (gridState 5 7 2 3 2 2 1 1)
        (local2Global (gridState 5 7 2 3 2 2 1 1) 5).1
        (local2Global (gridState 5 7 2 3 2 2 1 1) 5).2 = (5 : ℤ)) :=
  ⟨by decide,
   local2Global_roundtrip (gridState 5 7 2 3 2 2 1 1) 5 (by decide) (by decide) (by decide)
     (by decide) (by decide)⟩

/-- C3 counterexample: with `trans1 = transT` the flag-adjusted inner
dimensions of a `2×3` left operand and a `3×2` right operand disagree
(`k = 2` vs `that.rows = 3`), yet both `prod` specializations pass their only
fatal shape check (`cols() != that.rows()`) and proceed to allocate a result
and call the backend — no fatal user error is raised. -/
theorem prod_flag_check_counterexample :
    prodK ⟨2, 3⟩ transT ≠ prodKthat ⟨3, 2⟩ transN ∧
    prodRealShape ⟨2, 3⟩ ⟨3, 2⟩ transT transN = Except.ok ⟨3, 2⟩ ∧
    prodComplexShape ⟨2, 3⟩ ⟨3, 2⟩ transT transN = Except.ok ⟨2, 3⟩ :=
  ⟨by decide, rfl, rfl⟩

/-- C3 amended: `prod` raises its fatal user error exactly when
`cols() != that.rows()` — the untransposed inner dimensions — regardless of
the transpose flags (flag-adjusted mismatches are left to a debug-build
`assert` after result allocation); `+=` and `-=` raise exactly on a global
shape mismatch, before touching any buffer. -/
theorem shape_guards (a b : MatShape) (t1 t2 : Char) (abuf bbuf : List ℚ) :
    (prodRealShape a b t1 t2 =
        Except.error "Cannot multiply matrices for which lhs.cols != rhs.rows."
      ↔ a.cols ≠ b.rows) ∧
    (prodComplexShape a b t1 t2 =
        Except.error "Cannot multiply matrices for which lhs.cols != rhs.rows."
      ↔ a.cols ≠ b.rows) ∧
    (addInPlace a abuf b bbuf = Except.error "Cannot adds matrices of different sizes."
      ↔ (a.rows ≠ b.rows ∨ a.cols ≠ b.cols)) ∧
    (subInPlace a abuf b bbuf = Except.error "Cannot subtract matrices of different sizes."
      ↔ (a.rows ≠ b.rows ∨ a.cols ≠ b.cols)) := by
  refine ⟨?_, ?_, ?_, ?_⟩
  · unfold prodRealShape
    split_ifs with h <;> simp [h]
  · unfold prodComplexShape
    split_ifs with h <;> simp [h]
  · unfold addInPlace
    split_ifs with h <;> simp [h]
  · unfold subInPlace
    split_ifs with h <;> simp [h]

/-- C4 counterexample: multiplying a `2×3` by a `3×4` matrix with both flags
`transN` has output dimensions `m×n = 2×4`, but the real path returns a
matrix of the right operand's shape `3×4` and the complex path one of the
left operand's shape `2×3` — neither is `m×n`. -/
theorem prod_result_shape_counterexample :
    prodRealShape ⟨2, 3⟩ ⟨3, 4⟩ transN transN = Except.ok ⟨3, 4⟩ ∧
    prodComplexShape ⟨2, 3⟩ ⟨3, 4⟩ transN transN = Except.ok ⟨2, 3⟩ ∧
    prodM ⟨2, 3⟩ transN = 2 ∧ prodN ⟨3, 4⟩ transN = 4 ∧
    MatShape.mk 3 4 ≠ MatShape.mk 2 4 ∧ MatShape.mk 2 3 ≠ MatShape.mk 2 4 :=
  ⟨rfl, rfl, by decide, by decide, by decide, by decide⟩

/-- C4 amended: for every accepted pair of operands (any transpose flags), the
real `prod` returns a result with the right operand's global shape (it is
allocated as a copy of `that`) and the complex `prod` returns one with the
left operand's global shape and blocking (and a freshly initialized default
grid); these coincide with `m×n` only for special shapes such as square
untransposed operands. -/
theorem prod_result_shapes (a b : MatShape) (t1 t2 : Char) (h : a.cols = b.rows) :
    prodRealShape a b t1 t2 = Except.ok b ∧ prodComplexShape a b t1 t2 = Except.ok a := by
  constructor <;> simp [prodRealShape, prodComplexShape, h]

/-- Witness for the amended C4 at concrete shapes `6×3` times `3×6`. -/
theorem prod_result_shapes_witness :
    ((MatShape.mk 6 3).cols = (MatShape.mk 3 6).rows ∧
     prodRealShape ⟨6, 3⟩ ⟨3, 6⟩ transT transT = Except.ok ⟨3, 6⟩ ∧
     prodComplexShape ⟨6, 3⟩ ⟨3, 6⟩ transT transT = Except.ok ⟨6, 3⟩) :=
  ⟨by decide, prod_result_shapes ⟨6, 3⟩ ⟨3, 6⟩ transT transT (by decide)⟩

/-- C5: for an in-range global coordinate the calling process does not own,
both the non-const and the const `operator()` read as zero, and an assignment
through the non-const reference lands in the `dummyZero` member — the local
buffer (and the layout bookkeeping) are left completely unchanged. -/
theorem nonowned_access_inert (M : PMat) (row col : ℕ) (v : ℚ)
    (hrow : row < M.st.numRows) (hcol : col < M.st.numCols)
    (h : global2Local M.st row col = -1) :
    getElemMut M row col = 0 ∧ getElemConst M row col = 0 ∧
    (setElemMut M row col v).buf = M.buf ∧ (setElemMut M row col v).st = M.st := by
  refine ⟨?_, ?_, ?_, ?_⟩ <;> simp [getElemMut, getElemConst, setElemMut, h]

/-- Witness for C5: process `(0, 0)` of a `2×2` grid does not own coordinate
`(1, 0)` of a `2×2` matrix with `1×1` blocks; reading gives `0` and writing
`7` leaves its one-element local buffer `[5]` unchanged. -/
theorem nonowned_access_inert_witness :
    ((1 < 2 ∧ 0 < 2 ∧ global2Local (gridState 2 2 1 1 2 2 0 0) 1 0 = -1) ∧
     (getElemMut ⟨gridState 2 2 1 1 2 2 0 0, [5], 0⟩ 1 0 = 0 ∧
      getElemConst ⟨gridState 2 2 1 1 2 2 0 0, [5], 0⟩ 1 0 = 0 ∧
      (setElemMut ⟨gridState 2 2 1 1 2 2 0 0, [5], 0⟩ 1 0 7).buf = [5] ∧
      (setElemMut ⟨gridState 2 2 1 1 2 2 0 0, [5], 0⟩ 1 0 7).st = gridState 2 2 1 1 2 2 0 0)) :=
  ⟨⟨by decide, by decide, by decide⟩,
   nonowned_access_inert ⟨gridState 2 2 1 1 2 2 0 0, [5], 0⟩ 1 0 7 (by decide) (by decide)
     (by decide)⟩

/-- C6 (code bug): the bounds guard of the non-const `operator()` uses strict
`>` against `numRows_`/`numCols_` and never checks negativity, so for a `2×2`
matrix the out-of-range coordinate `(2, 0)` (row index equal to `numRows`)
does not raise — the guard only trips from `row = 3` up — and the negative
coordinate `(-1, 0)` does not raise either, contradicting the documented
constraint `0 ≤ row < numRows`, `0 ≤ col < numCols`. -/
theorem access_guard_misses_bounds :
    ((2 : ℤ) ≥ (2 : ℤ) ∧ accessGuardTrips 2 2 2 0 = false) ∧
    ((-1 : ℤ) < 0 ∧ accessGuardTrips 2 2 (-1) 0 = false) ∧
    accessGuardTrips 2 2 3 0 = true := by
  decide

/-- C7: `initBlacs` raises its fatal too-many-processes error exactly when
the requested `gridRows*gridCols` exceeds the worker count; with neither grid
dimension specified it selects the square grid `floor(sqrt(size)) ×
floor(sqrt(size))` exactly when the worker count is a perfect square and
raises the square-worker-count fatal error exactly otherwise. -/
theorem initBlacs_grid_selection (size reqRows reqCols : ℕ) :
    (initBlacsGrid size reqRows reqCols =
        Except.error "Developer error: initBlacs requested too many MPI processes."
      ↔ size < reqRows * reqCols) ∧
    (initBlacsGrid size 0 0 = Except.ok (Nat.sqrt size, Nat.sqrt size) ↔ ∃ k, size = k * k) ∧
    (initBlacsGrid size 0 0 =
        Except.error "Most ScaLAPACK calls need a square number of MPI processes"
      ↔ ¬ ∃ k, size = k * k) := by
  have hsq : Nat.sqrt size * Nat.sqrt size ≤ size := Nat.sqrt_le size
  have hiff : size = Nat.sqrt size * Nat.sqrt size ↔ ∃ k, size = k * k := by
    constructor
    · intro h
      exact ⟨Nat.sqrt size, h⟩
    · rintro ⟨k, rfl⟩
      rw [Nat.sqrt_eq]
  have hmsg : ("Most ScaLAPACK calls need a square number of MPI processes" : String)
      ≠ "Developer error: initBlacs requested too many MPI processes." := by decide
  have h00 : initBlacsGrid size 0 0 =
      (if Nat.sqrt size * Nat.sqrt size < size then
        Except.error "Most ScaLAPACK calls need a square number of MPI processes"
      else Except.ok (Nat.sqrt size, Nat.sqrt size)) := by
    unfold initBlacsGrid
    norm_num
  refine ⟨?_, ?_, ?_⟩
  · unfold initBlacsGrid
    by_cases h1 : size < reqRows * reqCols
    · simp [h1]
    · rw [if_neg h1]
      simp only [h1, iff_false]
      split_ifs with h2 h3 h4 h5 <;> simp [hmsg]
  · rw [h00]
    by_cases h : Nat.sqrt size * Nat.sqrt size < size
    · rw [if_pos h]
      constructor
      · intro hcon
        exact absurd hcon (by simp)
      · rintro ⟨k, rfl⟩
        rw [Nat.sqrt_eq] at h
        omega
    · rw [if_neg h]
      simp only [Except.ok.injEq, Prod.mk.injEq, and_self, true_iff]
      exact hiff.mp (by omega)
  · rw [h00]
    by_cases h : Nat.sqrt size * Nat.sqrt size < size
    · rw [if_pos h]
      simp only [Except.error.injEq, true_iff]
      rintro ⟨k, rfl⟩
      rw [Nat.sqrt_eq] at h
      omega
    · rw [if_neg h]
      constructor
      · intro hcon
        exact absurd hcon (by simp)
      · intro hcon
        exact absurd (hiff.mp (by omega)) hcon

/-- C8: on a square matrix, `symmetrize` — which snapshots the contents into
the copy `AT` and hands `pdtran_` the scale factor `0.5` for both the
transposed source and the accumulation target — replaces every entry `A i j`
with `(A i j + A j i) / 2`, i.e. the matrix becomes `(A + Aᵀ)/2`; and the
non-square guard raises the fatal user error exactly when `numRows ≠ numCols`. -/
theorem symmetrize_spec (n nR nC : ℕ) (A : Matrix (Fin n) (Fin n) ℚ) :
    (∀ i j, symmetrizeSquare n A i j = (A i j + A j i) / 2) ∧
    (symmetrizeCheck nR nC = Except.error "Cannot currently symmetrize a non-square matrix."
      ↔ nR ≠ nC) := by
  constructor
  · intro i j
    show (1 / 2 : ℚ) * A i j + (1 / 2 : ℚ) * A j i = (A i j + A j i) / 2
    ring
  · unfold symmetrizeCheck
    split_ifs with h <;> simp [h]

/-- C9: partial-spectrum `diagonalize` on a square matrix over a square
process grid clamps the requested count to `numRows`, returns exactly
`min(numEigenvalues, numRows)` eigenvalues, and allocates the eigenvector
matrix with the full `numRows × numRows` global shape. -/
theorem diagonalize_partial_spec (numRows numCols numBlacsRows numBlacsCols req : ℕ)
    (hsq : numRows = numCols) (hgrid : numBlacsRows = numBlacsCols) (hreq : 1 ≤ req) :
    diagonalizePartial numRows numCols numBlacsRows numBlacsCols req
      = Except.ok (min req numRows, numRows, numRows) := by
  subst hsq
  subst hgrid
  unfold diagonalizePartial
  rw [if_neg (by omega), if_neg (by omega)]
  have hmin : (if numRows < req then numRows else req) = min req numRows := by
    rw [Nat.min_def]
    split_ifs <;> omega
  rw [hmin]

/-- Witness for C9: requesting `9` eigenvalues of a `5×5` matrix on a `2×2`
grid yields `5` eigenvalues and a `5×5` eigenvector matrix. -/
theorem diagonalize_partial_spec_witness :
    ((5 = 5 ∧ 2 = 2 ∧ 1 ≤ 9) ∧
     diagonalizePartial 5 5 2 2 9 = Except.ok (min 9 5, 5, 5)) :=
  ⟨by decide, diagonalize_partial_spec 5 5 2 2 9 rfl rfl (by decide)⟩

/-- The per-process partial sums of `dot` between default-constructed
matrices all come out `some 0` without any buffer access. -/
theorem dotLocal_default_replicate (p : ℕ) :
    (List.replicate p ((defaultRaw, defaultRaw) : RawPMatrix × RawPMatrix)).mapM
      (fun ab => dotLocalOp ab.1 ab.2) = some (List.replicate p (0 : ℚ)) := by
  induction p with
  | zero => rfl
  | succ q ih =>
    rw [List.replicate_succ, List.replicate_succ, List.mapM_cons, ih]
    rfl

/-- C10: a default-constructed matrix is a valid empty matrix: `rows`,
`cols`, `localRows`, `localCols` and `size` are all `0`, and every purely
local operation on it (`zeros`, scalar `*=` and `/=`, unary negation, and
`dot` — which returns `0` after the all-reduce over any number of processes)
iterates over zero local elements and completes without ever dereferencing
the null buffer (a null dereference would surface as `none`). -/
theorem default_matrix_inert (p : ℕ) (c : ℚ) :
    defaultRaw.rows = 0 ∧ defaultRaw.cols = 0 ∧ defaultRaw.localRows = 0 ∧
    defaultRaw.localCols = 0 ∧ RawPMatrix.size defaultRaw = 0 ∧
    zerosOp defaultRaw = some defaultRaw ∧
    scalarMulOp defaultRaw c = some defaultRaw ∧
    scalarDivOp defaultRaw c = some defaultRaw ∧
    negOp defaultRaw = some defaultRaw ∧
    dotGlobal (List.replicate p (defaultRaw, defaultRaw)) = some 0 := by
  refine ⟨rfl, rfl, rfl, rfl, rfl, rfl, rfl, rfl, rfl, ?_⟩
  unfold dotGlobal
  rw [dotLocal_default_replicate]
  simp [allReduceSum, List.sum_replicate]
